import Mathlib

/-!
Shallow embedding of `bdf.go` (package `bdf`): the BDF font parser
(`Parse`, `parseGlobalsAndProperties`, `charToRune`, `findCharmap`,
`bitAt`) and the query layer (`lookup`, `GlyphBounds`).

Conventions of the embedding:
* Go `int` is `Int`; `byte` samples are `Nat` (values < 256, with the
  wrap of `byte(...)` conversions written as `% 256`); Go `rune` is an
  `Int` wrapped into the signed 32-bit range by `wrap32`.
* A Go function that can fail returns `PRes`: `.error (.atoiFail s)` /
  `.error (.hexFail s)` model returned `error` values, while
  `.error .runtimePanic` models a Go runtime panic (index out of range,
  nil-pointer dereference, negative `make` length, negative shift count,
  integer division by zero).  A panic aborts `Parse` without returning
  an `error` value, so it is kept distinct from returned errors.
* The input of `Parse` is modelled as the list of lines produced by
  `bufio.Scanner` (one entry per source line, line terminators removed).
* Go map `CharMap[rune]*Character` holds pointers into the
  `Characters` slice (which is never reallocated after `make`), so it
  is modelled as an association list from code point to slice index;
  inserting prepends, and lookup takes the first hit, which is exactly
  the map's last-write-wins behaviour.
-/

namespace Bdf

/-- Error outcome of a Go function: a returned `error` value, or a runtime
panic (which aborts `Parse` without returning an error). -/
inductive PErr where
  | atoiFail (s : String)
  | hexFail (s : String)
  | runtimePanic
deriving DecidableEq

abbrev PRes (α : Type) := Except PErr α

/-! ### Go primitives -/

/-- Go conversion `byte(n)` for `n : int`: the low 8 bits of the
two's-complement representation, i.e. `n` mod 256. -/
def byteOf (n : Int) : Nat := (n % 256).toNat

/-- Go conversion to `rune` (= `int32`): wrap into `[-2^31, 2^31)`. -/
def wrap32 (n : Int) : Int := (n + 2 ^ 31) % 2 ^ 32 - 2 ^ 31

/-- `strings.Split(s, " ")`: split on every single space, keeping empty
fields; the result is never empty. -/
def splitSpaceAux : List Char → List Char → List (List Char)
  | [], acc => [acc.reverse]
  | c :: rest, acc =>
      if c = ' ' then acc.reverse :: splitSpaceAux rest []
      else splitSpaceAux rest (c :: acc)

def goSplitSpace (s : String) : List String :=
  (splitSpaceAux s.data []).map fun cs => ⟨cs⟩

/-- `unicode.ToLower` restricted to the mappings whose result is an ASCII
character: the letters `A`-`Z`, plus the only two runes in Unicode whose
simple lowercase mapping lands in ASCII — U+0130 (LATIN CAPITAL LETTER I
WITH DOT ABOVE, lowercase `i`) and U+212A (KELVIN SIGN, lowercase `k`).
Every other rune either is fixed by `unicode.ToLower` or maps to a
non-ASCII rune, so after this map a character equals a given ASCII
character exactly when Go's full `strings.ToLower` would make it so;
comparisons against the charmap table's all-ASCII identifiers therefore
agree with Go on every input string. -/
def lowerChar (c : Char) : Char :=
  if 'A' ≤ c ∧ c ≤ 'Z' then Char.ofNat (c.toNat + 32)
  else if c.toNat = 0x130 then 'i'
  else if c.toNat = 0x212A then 'k'
  else c

/-- `strings.ToLower`: `unicode.ToLower` applied to each rune (see
`lowerChar` for why this fragment decides the table comparisons
faithfully). -/
def goToLower (s : String) : String := ⟨s.data.map lowerChar⟩

/-- `unicode.IsSpace`, complete: '\t' '\n' '\v' '\f' '\r' (0x09-0x0D),
space, U+0085, U+00A0, U+1680, U+2000-U+200A, U+2028, U+2029, U+202F,
U+205F, U+3000. -/
def isSpc (c : Char) : Bool :=
  (0x09 ≤ c.toNat && c.toNat ≤ 0x0D) || c.toNat = 0x20 ||
  c.toNat = 0x85 || c.toNat = 0xA0 || c.toNat = 0x1680 ||
  (0x2000 ≤ c.toNat && c.toNat ≤ 0x200A) ||
  c.toNat = 0x2028 || c.toNat = 0x2029 ||
  c.toNat = 0x202F || c.toNat = 0x205F || c.toNat = 0x3000

/-- `strings.TrimSpace`: drop `unicode.IsSpace` runes from both ends. -/
def goTrimSpace (s : String) : String :=
  ⟨((s.data.dropWhile fun c => isSpc c).reverse.dropWhile fun c => isSpc c).reverse⟩

def digitVal (c : Char) : Option Nat :=
  if '0' ≤ c ∧ c ≤ '9' then some (c.toNat - 48) else none

def digitsVal : List Char → Nat → Option Nat
  | [], acc => some acc
  | c :: rest, acc =>
      match digitVal c with
      | some d => digitsVal rest (acc * 10 + d)
      | none => none

/-- `strconv.Atoi`: optional sign followed by at least one decimal digit.
(Overflow of 64-bit `int`, which `Atoi` reports as a range error, is not
modelled; all integers in the claims are tiny.) -/
def atoi (s : String) : Option Int :=
  match s.data with
  | [] => none
  | '+' :: rest =>
      match rest with
      | [] => none
      | _ => (digitsVal rest 0).map Int.ofNat
  | '-' :: rest =>
      match rest with
      | [] => none
      | _ => (digitsVal rest 0).map fun n => -(n : Int)
  | cs => (digitsVal cs 0).map Int.ofNat

def hexDigitVal (c : Char) : Option Nat :=
  if '0' ≤ c ∧ c ≤ '9' then some (c.toNat - 48)
  else if 'a' ≤ c ∧ c ≤ 'f' then some (c.toNat - 87)
  else if 'A' ≤ c ∧ c ≤ 'F' then some (c.toNat - 55)
  else none

def hexChars : List Char → Option (List Nat)
  | [] => some []
  | [_] => none
  | c1 :: c2 :: rest => do
      let hi ← hexDigitVal c1
      let lo ← hexDigitVal c2
      let bs ← hexChars rest
      pure ((hi * 16 + lo) :: bs)

/-- `hex.DecodeString`: pairs of hex digits; odd length or a non-hex digit
is an error (the partially decoded prefix is discarded by the caller). -/
def hexDecode (s : String) : Option (List Nat) := hexChars s.data

/-! ### Charmap resolver (`findCharmap`, `charToRune`) -/

inductive Charmap where
  | iso8859_1
  | iso8859_2
  | iso8859_9
  | iso8859_15
deriving DecidableEq

/-- `charmap.ISO8859_1.DecodeByte`: ISO 8859-1 coincides with U+0000..U+00FF. -/
def iso8859_1Decode (b : Nat) : Int := b

/-- `charmap.ISO8859_2.DecodeByte` (ISO 8859-2, Latin-2): identical to the
byte value except at the listed positions of the upper half. -/
def iso8859_2Decode (b : Nat) : Int :=
  match b with
  | 0xA1 => 0x104 | 0xA2 => 0x2D8 | 0xA3 => 0x141 | 0xA5 => 0x13D
  | 0xA6 => 0x15A | 0xA9 => 0x160 | 0xAA => 0x15E | 0xAB => 0x164
  | 0xAC => 0x179 | 0xAE => 0x17D | 0xAF => 0x17B | 0xB1 => 0x105
  | 0xB2 => 0x2DB | 0xB3 => 0x142 | 0xB5 => 0x13E | 0xB6 => 0x15B
  | 0xB7 => 0x2C7 | 0xB9 => 0x161 | 0xBA => 0x15F | 0xBB => 0x165
  | 0xBC => 0x17A | 0xBD => 0x2DD | 0xBE => 0x17E | 0xBF => 0x17C
  | 0xC0 => 0x154 | 0xC3 => 0x102 | 0xC5 => 0x139 | 0xC6 => 0x106
  | 0xC8 => 0x10C | 0xCA => 0x118 | 0xCC => 0x11A | 0xCF => 0x10E
  | 0xD0 => 0x110 | 0xD1 => 0x143 | 0xD2 => 0x147 | 0xD5 => 0x150
  | 0xD8 => 0x158 | 0xD9 => 0x16E | 0xDB => 0x170 | 0xDE => 0x162
  | 0xE0 => 0x155 | 0xE3 => 0x103 | 0xE5 => 0x13A | 0xE6 => 0x107
  | 0xE8 => 0x10D | 0xEA => 0x119 | 0xEC => 0x11B | 0xEF => 0x10F
  | 0xF0 => 0x111 | 0xF1 => 0x144 | 0xF2 => 0x148 | 0xF5 => 0x151
  | 0xF8 => 0x159 | 0xF9 => 0x16F | 0xFB => 0x171 | 0xFE => 0x163
  | 0xFF => 0x2D9
  | _ => b

/-- `charmap.ISO8859_9.DecodeByte` (Latin-5): ISO 8859-1 with six Turkish
replacements. -/
def iso8859_9Decode (b : Nat) : Int :=
  match b with
  | 0xD0 => 0x11E | 0xDD => 0x130 | 0xDE => 0x15E
  | 0xF0 => 0x11F | 0xFD => 0x131 | 0xFE => 0x15F
  | _ => b

/-- `charmap.ISO8859_15.DecodeByte` (Latin-9): ISO 8859-1 with eight
replacements. -/
def iso8859_15Decode (b : Nat) : Int :=
  match b with
  | 0xA4 => 0x20AC | 0xA6 => 0x160 | 0xA8 => 0x161 | 0xB4 => 0x17D
  | 0xB8 => 0x17E | 0xBC => 0x152 | 0xBD => 0x153 | 0xBE => 0x178
  | _ => b

def decodeByte : Charmap → Nat → Int
  | .iso8859_1, b => iso8859_1Decode b
  | .iso8859_2, b => iso8859_2Decode b
  | .iso8859_9, b => iso8859_9Decode b
  | .iso8859_15, b => iso8859_15Decode b

/-- `findCharmap`: trim and lower-case the identifier, then look it up in
the fixed table of four known single-byte character sets. -/
def findCharmap (requested : String) : Option Charmap :=
  let trimmed := goTrimSpace (goToLower requested)
  if trimmed = "iso8859-1" then some .iso8859_1
  else if trimmed = "iso8859-2" then some .iso8859_2
  else if trimmed = "iso8859-9" then some .iso8859_9
  else if trimmed = "iso8859-15" then some .iso8859_15
  else none

/-- `charToRune`: decode the low byte through a known charmap, or fall back
to the Go conversion `rune(char)`. -/
def charToRune (encoding : String) (char : Int) : Int :=
  match findCharmap encoding with
  | some cm => decodeByte cm (byteOf char)
  | none => wrap32 char

/-- The inline resolution in `Parse`'s `ENCODING` case:
`charMap != nil ? charMap.DecodeByte(byte(code)) : rune(code)`. -/
def resolveCode (cm : Option Charmap) (code : Int) : Int :=
  match cm with
  | some m => decodeByte m (byteOf code)
  | none => wrap32 code

/-! ### Data model -/

/-- `image.Alpha` as built by the parser: `Rect.Min` is always the zero
point of the literal, `Rect.Max` is `(w, h)`, `Stride = w`, and `Pix` has
`w*h` one-byte samples. -/
structure Alpha where
  stride : Int := 0
  rectMinX : Int := 0
  rectMinY : Int := 0
  rectMaxX : Int := 0
  rectMaxY : Int := 0
  pix : List Nat := []
deriving DecidableEq

structure Character where
  name : String := ""
  encoding : Int := 0
  advance : Int × Int := (0, 0)
  alpha : Option Alpha := none
  lowerPoint : Int × Int := (0, 0)
deriving DecidableEq

/-- `Font`; field defaults are the Go zero values. `charMap` maps a code
point to the index of the owning entry of `characters` (the Go map stores
`&f.Characters[char]`, a pointer into the never-reallocated slice). -/
structure Font where
  name : String := ""
  size : Int := 0
  pixelSize : Int := 0
  dpi : Int × Int := (0, 0)
  bpp : Int := 0
  ascent : Int := 0
  descent : Int := 0
  capHeight : Int := 0
  xHeight : Int := 0
  characters : List Character := []
  charMap : List (Int × Nat) := []
  encoding : String := ""
  defaultChar : Int := 0
deriving DecidableEq

/-- Go map read `m[r]`: first (most recent) binding wins. -/
def findMap (m : List (Int × Nat)) (r : Int) : Option Nat :=
  match m with
  | [] => none
  | (k, v) :: rest => if k = r then some v else findMap rest r

/-- `Font.lookup`: the entry for `r`, else the entry for `DefaultChar`,
else nil.  Returns the index of the Character (the pointer target). -/
def lookup (f : Font) (r : Int) : Option Nat :=
  match findMap f.charMap r with
  | some c => some c
  | none => findMap f.charMap f.defaultChar

/-! ### Bitmap decoding -/

/-- `bitAt(xs, i) = (xs[i>>3] >> (7 - i%8)) & 1`; indexing past the row's
bytes is a runtime panic. -/
def bitAt (xs : List Nat) (i : Nat) : PRes Nat :=
  match xs[i / 8]? with
  | some x => .ok ((x >>> (7 - i % 8)) &&& 1)
  | none => .error .runtimePanic

/-- The inner `for j` loop of `Parse`'s bitmap case: `val <<= 1` on a Go
`byte` wraps mod 256, then `val |= bitAt(b, i*BPP+j)`. -/
def pixValAux (b : List Nat) : Nat → Nat → Nat → PRes Nat
  | _, 0, val => .ok val
  | pos, fuel + 1, val =>
      match bitAt b pos with
      | .ok bit => pixValAux b (pos + 1) fuel ((val * 2 % 256) ||| bit)
      | .error e => .error e

/-- The `BPP`-bit sample value for pixel `i`: `BPP` consecutive bits read
MSB-first starting at bit offset `i*BPP`. -/
def pixVal (bpp : Nat) (b : List Nat) (i : Nat) : PRes Nat :=
  pixValAux b (i * bpp) bpp 0

/-- `byte(uint32(val) * 0xff / ((1 << f.BPP) - 1))`.  The untyped `1`
assumes type `uint32`, so the mask is `(1 << BPP) - 1` in 32-bit
arithmetic (shift counts ≥ 32 give 0, and `0 - 1` wraps to `2^32 - 1`);
a negative shift count and a zero divisor are runtime panics; the final
`byte` conversion is `% 256`. -/
def scaleVal (bpp : Int) (val : Nat) : PRes Nat :=
  if bpp < 0 then .error .runtimePanic
  else
    let mask : Nat := (2 ^ bpp.toNat % 2 ^ 32 + (2 ^ 32 - 1)) % 2 ^ 32
    if mask = 0 then .error .runtimePanic
    else .ok (val * 255 / mask % 256)

/-- Modelled from the spec: "Scale the B-bit unsigned value `v` to an
8-bit intensity via `round(v * 255 / (2^B - 1))`" — rounding to nearest
(ties away from zero), written over `Nat` as `(2a + b) / 2b` for `a / b`.
This is the spec's formula, to be compared against `scaleVal` above. -/
def roundScale (bpp v : Nat) : Nat :=
  (2 * (v * 255) + (2 ^ bpp - 1)) / (2 * (2 ^ bpp - 1))

/-- `Pix[idx] = v` with the slice bounds check. -/
def writePix (pix : List Nat) (idx : Int) (v : Nat) : PRes (List Nat) :=
  if 0 ≤ idx ∧ idx.toNat < pix.length then .ok (pix.set idx.toNat v)
  else .error .runtimePanic

/-- The `for i := 0; i < Stride; i++` loop over one bitmap row:
`Pix[row*Stride+i] = byte(uint32(val) * 0xff / ((1 << BPP) - 1))`. -/
def rowLoopAux (b : List Nat) (bpp row stride : Int) :
    Nat → Nat → List Nat → PRes (List Nat)
  | 0, _, pix => .ok pix
  | fuel + 1, i, pix => do
      let v ← pixVal bpp.toNat b i
      let sv ← scaleVal bpp v
      let pix ← writePix pix (row * stride + (i : Int)) sv
      rowLoopAux b bpp row stride fuel (i + 1) pix

def rowLoop (b : List Nat) (bpp row stride : Int) (pix : List Nat) :
    PRes (List Nat) :=
  rowLoopAux b bpp row stride stride.toNat 0 pix

/-! ### The parser -/

/-- The state of `Parse`'s per-glyph loop: the cursor `char` and row
counter are Go `int`s starting at `-1`. -/
structure PState where
  f : Font
  char : Int
  row : Int
  inBitmap : Bool
deriving DecidableEq

/-- An access `f.Characters[char]` / write through it: a negative or
too-large cursor is an index-out-of-range runtime panic. -/
def updChar (st : PState) (g : Character → Character) : PRes PState :=
  if 0 ≤ st.char ∧ st.char.toNat < st.f.characters.length then
    let cs := st.f.characters.set st.char.toNat
      (g (st.f.characters.getD st.char.toNat {}))
    .ok { st with f := { st.f with characters := cs } }
  else .error .runtimePanic

def tok (comps : List String) (i : Nat) : PRes String :=
  match comps.get? i with
  | some s => .ok s
  | none => .error .runtimePanic

def atoiTok (comps : List String) (i : Nat) : PRes Int := do
  let s ← tok comps i
  match atoi s with
  | some n => .ok n
  | none => .error (.atoiFail s)

/-- After the global scan (`break scan` or end of input):
`f.Encoding = registry + "-" + encoding` and
`f.DefaultChar = charToRune(f.Encoding, defaultChar)` — run
unconditionally, overwriting the `DefaultChar: 32` of `Parse`'s literal. -/
def finalizeGlobals (f : Font) (reg enc : String) (dc : Int) : Font :=
  let encoding := reg ++ "-" ++ enc
  { f with encoding := encoding, defaultChar := charToRune encoding dc }

/-- `parseGlobalsAndProperties`: scan lines until `CHARS`, accumulating
globals; unrecognized keywords are ignored.  Returns the font together
with the lines the scanner has not consumed. -/
def parseGlobals : List String → Font → String → String → Int →
    PRes (Font × List String)
  | [], f, reg, enc, dc => .ok (finalizeGlobals f reg enc dc, [])
  | line :: rest, f, reg, enc, dc =>
    let comps := goSplitSpace line
    match comps.headD "" with
    | "FONT" => do
        let n ← tok comps 1
        parseGlobals rest { f with name := n } reg enc dc
    | "SIZE" => do
        let sz ← atoiTok comps 1
        let d0 ← atoiTok comps 2
        let d1 ← atoiTok comps 3
        let f := { f with size := sz, dpi := (d0, d1) }
        if 4 < comps.length then do
          let bp ← atoiTok comps 4
          parseGlobals rest { f with bpp := bp } reg enc dc
        else
          parseGlobals rest f reg enc dc
    | "CHARSET_REGISTRY" => do
        let t ← tok comps 1
        parseGlobals rest f t enc dc
    | "CHARSET_ENCODING" => do
        let t ← tok comps 1
        parseGlobals rest f reg t dc
    | "PIXEL_SIZE" => do
        -- the source assigns the Atoi error to `err` but never checks it:
        -- on failure PixelSize receives Atoi's zero result and the scan
        -- continues
        let t ← tok comps 1
        parseGlobals rest { f with pixelSize := (atoi t).getD 0 } reg enc dc
    | "FONT_ASCENT" => do
        let a ← atoiTok comps 1
        parseGlobals rest { f with ascent := a } reg enc dc
    | "FONT_DESCENT" => do
        let a ← atoiTok comps 1
        parseGlobals rest { f with descent := a } reg enc dc
    | "CAP_HEIGHT" => do
        let a ← atoiTok comps 1
        parseGlobals rest { f with capHeight := a } reg enc dc
    | "X_HEIGHT" => do
        let a ← atoiTok comps 1
        parseGlobals rest { f with xHeight := a } reg enc dc
    | "DEFAULT_CHAR" => do
        let d ← atoiTok comps 1
        parseGlobals rest f reg enc d
    | "CHARS" => do
        let c ← atoiTok comps 1
        -- make([]Character, count) panics on a negative count
        if c < 0 then .error .runtimePanic
        else
          let f' := { f with characters := List.replicate c.toNat ({} : Character) }
          .ok (finalizeGlobals f' reg enc dc, rest)
    | _ => parseGlobals rest f reg enc dc

/-- One line of the per-glyph loop in Meta mode (`!inBitmap`): the switch
on `components[0]`; unmatched keywords are ignored. -/
def metaStep (cm : Option Charmap) (comps : List String) (st : PState) :
    PRes PState :=
  match comps.headD "" with
  | "STARTCHAR" => do
      -- char++; f.Characters[char].Name = components[1]
      let st := { st with char := st.char + 1 }
      let n ← tok comps 1
      updChar st fun c => { c with name := n }
  | "ENCODING" => do
      let code ← atoiTok comps 1
      let r := resolveCode cm code
      -- f.Characters[char].Encoding = r
      let st ← updChar st fun c => { c with encoding := r }
      -- f.CharMap[r] = &f.Characters[char]
      .ok { st with f := { st.f with charMap := (r, st.char.toNat) :: st.f.charMap } }
  | "DWIDTH" => do
      let a0 ← atoiTok comps 1
      let st ← updChar st fun c => { c with advance := (a0, c.advance.2) }
      let a1 ← atoiTok comps 2
      updChar st fun c => { c with advance := (c.advance.1, a1) }
  | "BBX" => do
      let w ← atoiTok comps 1
      let h ← atoiTok comps 2
      let lx ← atoiTok comps 3
      let ly ← atoiTok comps 4
      let st ← updChar st fun c => { c with lowerPoint := (lx, ly) }
      -- make([]byte, w*h) panics on a negative length
      if w * h < 0 then .error .runtimePanic
      else
        let a : Alpha := { stride := w, rectMinX := 0, rectMinY := 0,
                           rectMaxX := w, rectMaxY := h,
                           pix := List.replicate (w * h).toNat 0 }
        updChar st fun c => { c with alpha := some a }
  | "BITMAP" => .ok { st with inBitmap := true, row := -1 }
  | _ => .ok st

/-- One non-`ENDCHAR` line in Bitmap mode: `row++`, hex-decode the whole
line, then fill `Stride` samples of that row.  `f.Characters[char].Alpha`
is a nil-pointer dereference (panic) when no `BBX` allocated it. -/
def bitmapRow (line : String) (st : PState) : PRes PState := do
  let st := { st with row := st.row + 1 }
  let b ← match hexDecode line with
    | some bs => Except.ok bs
    | none => Except.error (.hexFail line)
  if 0 ≤ st.char ∧ st.char.toNat < st.f.characters.length then
    match (st.f.characters.getD st.char.toNat {}).alpha with
    | none => .error .runtimePanic
    | some a => do
        let pix ← rowLoop b st.f.bpp st.row a.stride a.pix
        updChar st fun c => { c with alpha := some { a with pix := pix } }
  else .error .runtimePanic

/-- One iteration of `Parse`'s scan loop. -/
def stepLine (cm : Option Charmap) (line : String) (st : PState) :
    PRes PState :=
  let comps := goSplitSpace line
  if st.inBitmap then
    if comps.headD "" = "ENDCHAR" then .ok { st with inBitmap := false }
    else bitmapRow line st
  else metaStep cm comps st

/-- The rest of `Parse` after the global scan: run the per-glyph loop to
the end of input and return the font. -/
def runLines (cm : Option Charmap) : List String → PState → PRes Font
  | [], st => .ok st.f
  | line :: rest, st => do
      let st' ← stepLine cm line st
      runLines cm rest st'

/-- `Parse`: the initial literal sets `CharMap`, `DefaultChar: 32` and
`BPP: 1`; then the global scan, then the per-glyph loop with
`char = row = -1`, `inBitmap = false`. -/
def parse (lines : List String) : PRes Font := do
  let f0 : Font := { charMap := [], defaultChar := 32, bpp := 1 }
  let (f, rest) ← parseGlobals lines f0 "" "" 0
  let cm := findCharmap f.encoding
  runLines cm rest { f := f, char := -1, row := -1, inBitmap := false }

/-! ### Query layer (`GlyphBounds`) -/

/-- `fixed.I(i)`: 26.6 fixed point, `i << 6` truncated to `Int26_6`
(= `int32`). -/
def fixedI (x : Int) : Int := wrap32 (64 * x)

/-- `fixed.R(minX, minY, maxX, maxY)`: swaps each coordinate pair if
given out of order, then scales by 64 into 26.6 fixed point. -/
def fixedR (x0 y0 x1 y1 : Int) :
    (Int × Int) × (Int × Int) :=
  let xs := if x0 > x1 then (x1, x0) else (x0, x1)
  let ys := if y0 > y1 then (y1, y0) else (y0, y1)
  ((fixedI xs.1, fixedI ys.1), (fixedI xs.2, fixedI ys.2))

/-- `Face.GlyphBounds`: on a miss a degenerate rectangle from the font's
ascent/descent with zero advance and `ok = false`; on a hit the rectangle
`R(lx, -Ascent, lx + Alpha.Rect.Dx(), Descent)` with advance
`I(Advance[0])` and `ok = true`.  Dereferencing the looked-up pointer
cannot fail for maps built by `parse` (they index into `characters`); a
glyph that never saw a `BBX` has a nil `Alpha`, so `c.Alpha.Rect` is a
nil-pointer dereference (panic). -/
def glyphBounds (f : Font) (r : Int) :
    PRes (((Int × Int) × (Int × Int)) × Int × Bool) :=
  match lookup f r with
  | none => .ok (fixedR 0 (-f.ascent) 0 f.descent, 0, false)
  | some i =>
    match f.characters[i]? with
    | none => .error .runtimePanic
    | some c =>
      match c.alpha with
      | none => .error .runtimePanic
      | some a =>
        .ok (fixedR c.lowerPoint.1 (-f.ascent)
              (c.lowerPoint.1 + (a.rectMaxX - a.rectMinX)) f.descent,
             fixedI c.advance.1, true)

/-! ### Result observers -/

def isOk {α : Type} : PRes α → Bool
  | .ok _ => true
  | _ => false

def isRuntimePanic {α : Type} : PRes α → Bool
  | .error .runtimePanic => true
  | _ => false

def fontDefaultChar : PRes Font → Option Int
  | .ok f => some f.defaultChar
  | _ => none

def fontPixelSize : PRes Font → Option Int
  | .ok f => some f.pixelSize
  | _ => none

/-- The decoded intensity samples of character `idx` of a parse result. -/
def fontPix (idx : Nat) : PRes Font → Option (List Nat)
  | .ok f => (f.characters[idx]?).bind fun c => c.alpha.map Alpha.pix
  | _ => none

/-! ### Concrete fixtures used by witnesses -/

/-- A font whose index registers code point 65 at slot 0 and whose default
code point (32) is unregistered. -/
def fontC2 : Font := { charMap := [(65, 0)], defaultChar := 32 }

/-- A mid-parse state: two pre-allocated glyphs, code point 65 already
registered by the earlier glyph (slot 0), cursor on the later glyph
(slot 1). -/
def stC8 : PState :=
  { f := { characters := [{}, {}], charMap := [(65, 0)] },
    char := 1, row := -1, inBitmap := false }

/-- A state in Bitmap mode, as left by a `STARTCHAR` block whose
`ENDCHAR` is missing when the input ends. -/
def stC7 : PState := { f := {}, char := 0, row := 0, inBitmap := true }

/-- A one-glyph font for the `GlyphBounds` hit case. -/
def alphaC9 : Alpha :=
  { stride := 8, rectMinX := 0, rectMinY := 0, rectMaxX := 8, rectMaxY := 8,
    pix := List.replicate 64 255 }

def charC9 : Character :=
  { name := "A", encoding := 65, advance := (8, 0), alpha := some alphaC9,
    lowerPoint := (1, 2) }

def fontC9 : Font :=
  { ascent := 7, descent := 2, characters := [charC9], charMap := [(65, 0)],
    defaultChar := 32 }

/-! ### Theorems -/

theorem bitAt_le_one {b : List Nat} {i bit : Nat} (h : bitAt b i = .ok bit) :
    bit ≤ 1 := by
  unfold bitAt at h
  cases hx : b[i / 8]? with
  | some x =>
      rw [hx] at h
      simp only [Except.ok.injEq] at h
      subst h
      exact Nat.and_le_right
  | none => rw [hx] at h; cases h

theorem pixValAux_lt {b : List Nat} : ∀ (fuel pos val v k : Nat),
    k + fuel ≤ 8 → val < 2 ^ k → pixValAux b pos fuel val = .ok v →
    v < 2 ^ (k + fuel) := by
  intro fuel
  induction fuel with
  | zero =>
      intro pos val v k hle hval h
      unfold pixValAux at h
      simp only [Except.ok.injEq] at h
      subst h
      simpa using hval
  | succ m ih =>
      intro pos val v k hle hval h
      unfold pixValAux at h
      cases hb : bitAt b pos with
      | error e => rw [hb] at h; cases h
      | ok bit =>
          rw [hb] at h
          have hbit : bit ≤ 1 := bitAt_le_one hb
          have hv2 : val * 2 < 2 ^ (k + 1) := by
            rw [pow_succ]; omega
          have h256 : (2 : Nat) ^ (k + 1) ≤ 2 ^ 8 :=
            Nat.pow_le_pow_right (by norm_num) (by omega)
          have hmod : val * 2 % 256 = val * 2 :=
            Nat.mod_eq_of_lt (lt_of_lt_of_le hv2 (by norm_num at h256 ⊢; omega))
          have hnew : (val * 2 % 256) ||| bit < 2 ^ (k + 1) := by
            rw [hmod]
            refine Nat.or_lt_two_pow hv2 (lt_of_le_of_lt hbit ?_)
            have : (2 : Nat) ^ 1 ≤ 2 ^ (k + 1) :=
              Nat.pow_le_pow_right (by norm_num) (by omega)
            omega
          have hres := ih (pos + 1) _ v (k + 1) (by omega) hnew h
          have he : k + 1 + m = k + (m + 1) := by omega
          rwa [he] at hres

theorem pixVal_lt {bpp : Nat} {b : List Nat} {i v : Nat} (h8 : bpp ≤ 8)
    (h : pixVal bpp b i = .ok v) : v < 2 ^ bpp := by
  have hres := pixValAux_lt (b := b) bpp (i * bpp) 0 v 0 (by omega)
    (by norm_num) h
  simpa using hres

/-- C1: the spec demands a GlyphCountMismatch *error* for an excess
`STARTCHAR`; the code instead hits an index-out-of-range runtime panic at
`f.Characters[char]` (cursor 1, length 1), so no error value is ever
returned.  A single declared glyph parses fine. -/
theorem C1_excess_startchar_panics :
    isRuntimePanic (parse ["CHARS 1", "STARTCHAR a", "STARTCHAR b"]) = true ∧
    isOk (parse ["CHARS 1", "STARTCHAR a"]) = true :=
  ⟨rfl, rfl⟩

/-- C2: `lookup` returns the index registered for the requested code
point; when that is absent it returns whatever the index holds for the
font's default code point; and it returns nil exactly when neither is
registered. -/
theorem C2_lookup_tri_state (f : Font) (r : Int) :
    (∀ i, findMap f.charMap r = some i → lookup f r = some i) ∧
    (findMap f.charMap r = none →
      lookup f r = findMap f.charMap f.defaultChar) ∧
    (lookup f r = none ↔
      findMap f.charMap r = none ∧ findMap f.charMap f.defaultChar = none) := by
  unfold lookup
  cases h : findMap f.charMap r with
  | some i =>
      refine ⟨?_, ?_, ?_⟩
      · intro j hj
        obtain rfl : i = j := by simpa using hj
        rfl
      · intro hn; cases hn
      · simp
  | none =>
      cases h2 : findMap f.charMap f.defaultChar <;> simp [h2]

theorem C2_lookup_tri_state_witness : lookup fontC2 65 = some 0 :=
  (C2_lookup_tri_state fontC2 65).1 0 rfl

/-- C4: the spec's fallback default code point is 32, and `Parse`'s
literal does set `DefaultChar: 32`; but `parseGlobalsAndProperties`
unconditionally overwrites it with `charToRune(encoding, defaultChar)`
where the local `defaultChar` is still `0` when no `DEFAULT_CHAR` line
was seen — so the parsed font's default code point is 0, not 32. -/
theorem C4_default_char_is_zero :
    fontDefaultChar (parse ["CHARS 0"]) = some 0 ∧ (0 : Int) ≠ 32 :=
  ⟨rfl, by decide⟩

/-- C5 counterexample: for an identifier not in the charmap table the raw
code is converted by `rune(code)`, an int32 truncation — so the raw code
2^32 resolves to 0, not to itself, refuting the unrestricted identity
claim. -/
theorem C5_cex_identity_wraps :
    charToRune "x-unknown" 4294967296 = 0 ∧ (0 : Int) ≠ 4294967296 :=
  ⟨rfl, by decide⟩

/-- C5 (amended): charset matching is case-insensitive and
whitespace-trimmed against the fixed table — including the form feed that
`unicode.IsSpace` trims and the non-ASCII lowering U+0130 → `i`; for
"ISO8859-1" raw code 0xE9 resolves to the scalar of "é", and any code is
reduced to its low byte before a table decode (0x012C = 300 decodes to
44); for identifiers outside the table the raw code resolves to itself
whenever it lies in the signed 32-bit rune range (otherwise it is wrapped
modulo 2^32 by the `rune(int)` conversion, see the counterexample). -/
theorem C5_charmap_resolution (enc : String) (code : Int)
    (hnone : findCharmap enc = none)
    (hlo : -(2 ^ 31) ≤ code) (hhi : code < 2 ^ 31) :
    charToRune enc code = code ∧
    charToRune "ISO8859-1" 0xE9 = (('é' : Char).toNat : Int) ∧
    findCharmap "  ISO8859-1 " = some .iso8859_1 ∧
    findCharmap "\x0cISO8859-1\x0c" = some .iso8859_1 ∧
    charToRune "İSO8859-1" 300 = 44 := by
  refine ⟨?_, rfl, rfl, rfl, rfl⟩
  have hred : charToRune enc code = wrap32 code := by
    unfold charToRune; rw [hnone]
  rw [hred]
  unfold wrap32
  have h1 : (0 : Int) ≤ code + 2 ^ 31 := by omega
  have h2 : code + 2 ^ 31 < 2 ^ 32 := by omega
  rw [Int.emod_eq_of_lt h1 h2]
  omega

theorem C5_charmap_resolution_witness :
    charToRune "x-unknown" 5 = 5 ∧
    charToRune "ISO8859-1" 0xE9 = (('é' : Char).toNat : Int) ∧
    findCharmap "  ISO8859-1 " = some .iso8859_1 ∧
    findCharmap "\x0cISO8859-1\x0c" = some .iso8859_1 ∧
    charToRune "İSO8859-1" 300 = 44 :=
  C5_charmap_resolution "x-unknown" 5 rfl (by decide) (by decide)

/-- C6: the claim's own example — a non-numeric `PIXEL_SIZE` argument —
does NOT abort the parse: the `Atoi` error is assigned to `err` but never
checked, so `Parse` returns a Font with `PixelSize = 0`.  (A recognized
keyword with too few tokens, e.g. a bare `FONT`, aborts the parse by an
index-out-of-range panic on `components[1]`, not by a returned error.) -/
theorem C6_pixel_size_error_swallowed :
    isOk (parse ["PIXEL_SIZE abc", "CHARS 0"]) = true ∧
    fontPixelSize (parse ["PIXEL_SIZE abc", "CHARS 0"]) = some 0 ∧
    isRuntimePanic (parse ["FONT"]) = true :=
  ⟨rfl, rfl, rfl⟩

/-- C7 counterexample: an input that ends in Bitmap mode — a `STARTCHAR`
block with no matching `ENDCHAR` — parses successfully; no
UnterminatedGlyph error exists in the code. -/
theorem C7_cex_unterminated_glyph_ok :
    isOk (parse ["CHARS 1", "STARTCHAR a", "BBX 1 1 0 0", "BITMAP", "00"])
      = true := rfl

/-- C7 (amended): reaching the end of input while still inside a glyph
block is not an error: the scan loop of `Parse` simply terminates and the
font built so far is returned. -/
theorem C7_eof_in_glyph_returns_font (cm : Option Charmap) (st : PState)
    (h : st.inBitmap = true) : runLines cm [] st = .ok st.f := rfl

theorem C7_eof_in_glyph_returns_font_witness :
    runLines none [] stC7 = .ok stC7.f :=
  C7_eof_in_glyph_returns_font none stC7 rfl

/-- C10: when the charset identifier resolves to a known charmap, both the
`ENCODING` path (`resolveCode`, used by `Parse`'s glyph loop) and the
`DEFAULT_CHAR` path (`charToRune`) decode `byte(code)` — the code reduced
modulo 256 — so codes congruent modulo 256 resolve identically. -/
theorem C10_encoding_truncated_mod_256 (enc : String) (cm : Charmap)
    (a b : Int) (hcm : findCharmap enc = some cm) (hab : a % 256 = b % 256) :
    charToRune enc a = charToRune enc b ∧
    resolveCode (some cm) a = resolveCode (some cm) b ∧
    resolveCode (some cm) a = decodeByte cm (a % 256).toNat := by
  unfold charToRune resolveCode byteOf
  rw [hcm, hab]
  exact ⟨rfl, rfl, rfl⟩

/-- C3 counterexample: at bit depth 3 the stored intensity uses Go integer
division, not rounding.  Parsing a depth-3 font whose row `48` (hex) holds
the 3-bit sample value 2 in both pixels stores intensity 72 =
`2*255/7` (floor), while the spec's `round(2*255/7)` is 73. -/
theorem C3_cex_depth3_floor_not_round :
    fontPix 0 (parse ["SIZE 12 75 75 3", "CHARS 1", "STARTCHAR a",
      "BBX 2 1 0 0", "BITMAP", "48"]) = some [72, 72] ∧
    pixVal 3 [0x48] 0 = .ok 2 ∧ roundScale 3 2 = 73 ∧ (72 : Nat) ≠ 73 :=
  ⟨rfl, rfl, rfl, by decide⟩

/-- C3 (amended): for bit depth `1 ≤ B ≤ 8`, the sample value `v` read
MSB-first at bit offset `i*B` satisfies `v < 2^B`, and the stored 8-bit
intensity is `v * 255 / (2^B - 1)` with Go's truncating division (the
spec's `round` agrees exactly when `2^B - 1` divides 255); in particular
`B = 1` yields only 0 or 255, and `B = 2` agrees with `round(v*255/3)`. -/
theorem C3_intensity_floor_scaling (bpp : Nat) (b : List Nat) (i v : Nat)
    (h1 : 1 ≤ bpp) (h8 : bpp ≤ 8) (hv : pixVal bpp b i = .ok v) :
    v < 2 ^ bpp ∧
    scaleVal (bpp : Int) v = .ok (v * 255 / (2 ^ bpp - 1)) ∧
    (bpp = 1 → v * 255 / (2 ^ bpp - 1) = 0 ∨ v * 255 / (2 ^ bpp - 1) = 255) ∧
    (bpp = 2 → v * 255 / (2 ^ bpp - 1) = roundScale 2 v) := by
  have hvlt := pixVal_lt h8 hv
  have h2le : (2 : Nat) ^ 1 ≤ 2 ^ bpp := Nat.pow_le_pow_right (by norm_num) h1
  have hple : (2 : Nat) ^ bpp ≤ 2 ^ 8 := Nat.pow_le_pow_right (by norm_num) h8
  refine ⟨hvlt, ?_, ?_, ?_⟩
  · have hq : v * 255 / (2 ^ bpp - 1) ≤ 255 := by
      have hvle : v ≤ 2 ^ bpp - 1 := by omega
      have hmul : v * 255 ≤ (2 ^ bpp - 1) * 255 := Nat.mul_le_mul_right _ hvle
      calc v * 255 / (2 ^ bpp - 1) ≤ (2 ^ bpp - 1) * 255 / (2 ^ bpp - 1) :=
            Nat.div_le_div_right hmul
        _ = 255 := Nat.mul_div_cancel_left 255 (by norm_num at h2le; omega)
    have hmask : ((2 : Nat) ^ bpp % 2 ^ 32 + (2 ^ 32 - 1)) % 2 ^ 32
        = 2 ^ bpp - 1 := by
      have h32 : (2 : Nat) ^ 32 = 4294967296 := by norm_num
      have h8' : (2 : Nat) ^ 8 = 256 := by norm_num
      rw [h32]
      omega
    unfold scaleVal
    rw [if_neg (by omega)]
    simp only [Int.toNat_natCast, hmask]
    rw [if_neg (by norm_num at h2le; omega)]
    rw [Nat.mod_eq_of_lt (by omega)]
  · intro hb
    subst hb
    have hv2 : v < 2 := by norm_num at hvlt; exact hvlt
    interval_cases v <;> decide
  · intro hb
    subst hb
    have hv4 : v < 4 := by norm_num at hvlt; exact hvlt
    interval_cases v <;> decide

theorem C3_intensity_floor_scaling_witness :
    (1 : Nat) < 2 ^ 2 ∧
    scaleVal ((2 : Nat) : Int) 1 = .ok (1 * 255 / (2 ^ 2 - 1)) ∧
    ((2 : Nat) = 1 → 1 * 255 / (2 ^ 2 - 1) = 0 ∨ 1 * 255 / (2 ^ 2 - 1) = 255) ∧
    ((2 : Nat) = 2 → 1 * 255 / (2 ^ 2 - 1) = roundScale 2 1) :=
  C3_intensity_floor_scaling 2 [0x6C] 0 1 (by decide) (by decide) rfl

theorem C10_encoding_truncated_mod_256_witness :
    charToRune "ISO8859-1" 321 = charToRune "ISO8859-1" 65 ∧
    resolveCode (some .iso8859_1) 321 = resolveCode (some .iso8859_1) 65 ∧
    resolveCode (some .iso8859_1) 321 =
      decodeByte .iso8859_1 ((321 : Int) % 256).toNat :=
  C10_encoding_truncated_mod_256 "ISO8859-1" .iso8859_1 321 65 rfl (by decide)

/-- The registration step closing the `ENCODING` case:
`f.CharMap[r] = &f.Characters[char]`. -/
def encodingFinish (cm : Option Charmap) (code : Int) (st1 : PState) :
    PRes PState :=
  .ok { st1 with f :=
    { st1.f with charMap := (resolveCode cm code, st1.char.toNat) :: st1.f.charMap } }

/-- The successful branch of `updChar`: slot `st.char` replaced by `c`. -/
def setCharAt (st : PState) (c : Character) : PState :=
  { st with f := { st.f with characters := st.f.characters.set st.char.toNat c } }

theorem bind_ok {α β : Type} (x : α) (k : α → PRes β) :
    (Except.ok x : PRes α) >>= k = k x := rfl

theorem bind_error {α β : Type} (e : PErr) (k : α → PRes β) :
    (Except.error e : PRes α) >>= k = (Except.error e : PRes β) := rfl

/-- The state produced by `metaStep` on `ENCODING 65` from `stC8`. -/
def stC8' : PState :=
  { f := { characters := [{}, { encoding := 65 }], charMap := [(65, 1), (65, 0)] },
    char := 1, row := -1, inBitmap := false }

/-- C8: processing an `ENCODING` line registers the resolved code point
to the *current* glyph slot, overwriting whatever binding the index held
before (last write wins: `lookup` now yields the later glyph), while the
ordered `characters` sequence keeps its length and every other slot
unchanged — so an earlier glyph with the same code point stays in the
sequence, merely unindexed. -/
theorem C8_last_write_wins (cm : Option Charmap) (st : PState) (n : String)
    (rest : List String) (v : Int) (st' : PState)
    (hv : atoi n = some v)
    (h : metaStep cm ("ENCODING" :: n :: rest) st = .ok st') :
    lookup st'.f (resolveCode cm v) = some st.char.toNat ∧
    st'.f.characters.length = st.f.characters.length ∧
    ∀ j, j ≠ st.char.toNat → st'.f.characters[j]? = st.f.characters[j]? := by
  have hat : atoiTok ("ENCODING" :: n :: rest) 1 = .ok v := by
    unfold atoiTok tok
    simp only [List.get?_cons_succ, List.get?_cons_zero, bind_ok]
    rw [hv]
  have hmeta : metaStep cm ("ENCODING" :: n :: rest) st
      = (updChar st fun c => { c with encoding := resolveCode cm v }) >>=
          encodingFinish cm v := by
    conv_lhs => rw [show metaStep cm ("ENCODING" :: n :: rest) st
      = atoiTok ("ENCODING" :: n :: rest) 1 >>=
          (fun code =>
            (updChar st fun c => { c with encoding := resolveCode cm code }) >>=
              encodingFinish cm code) from rfl]
    rw [hat]
    exact bind_ok v _
  rw [hmeta] at h
  by_cases hP : 0 ≤ st.char ∧ st.char.toNat < st.f.characters.length
  · have hup : updChar st (fun c => { c with encoding := resolveCode cm v })
        = .ok (setCharAt st
            { st.f.characters.getD st.char.toNat {} with
                encoding := resolveCode cm v }) := by
      unfold updChar
      rw [if_pos hP]
      exact rfl
    rw [hup, bind_ok] at h
    unfold encodingFinish at h
    simp only [Except.ok.injEq] at h
    subst h
    refine ⟨?_, ?_, ?_⟩
    · simp [lookup, findMap, setCharAt]
    · simp [setCharAt, List.length_set]
    · intro j hj
      simpa [setCharAt] using List.getElem?_set_ne (Ne.symm hj)
  · have hup : updChar st (fun c => { c with encoding := resolveCode cm v })
        = .error .runtimePanic := by
      unfold updChar
      rw [if_neg hP]
    rw [hup, bind_error] at h
    exact (Except.noConfusion h)

theorem C8_last_write_wins_witness :
    lookup stC8'.f (resolveCode none 65) = some stC8.char.toNat ∧
    stC8'.f.characters.length = stC8.f.characters.length :=
  ⟨(C8_last_write_wins none stC8 "65" [] 65 stC8' rfl rfl).1,
   (C8_last_write_wins none stC8 "65" [] 65 stC8' rfl rfl).2.1⟩

/-- C9: `GlyphBounds` on a miss (nothing registered for the requested
code point and nothing for the default, i.e. `lookup` is nil) returns the
degenerate rectangle `R(0, -Ascent, 0, Descent)` — zero width, built only
from the font-wide ascent/descent — with zero advance and `ok = false`;
on a hit with an allocated raster it returns
`R(lx, -Ascent, lx + Dx, Descent)` anchored at the glyph's horizontal
origin offset `lx` with the raster's width `Dx`, advance
`I(Advance[0])` in 26.6 fixed point, and `ok = true`. -/
theorem C9_glyphBounds_hit_miss (f : Font) (r : Int) :
    (lookup f r = none →
      glyphBounds f r = .ok (fixedR 0 (-f.ascent) 0 f.descent, 0, false)) ∧
    (∀ i c a, lookup f r = some i → f.characters[i]? = some c →
      c.alpha = some a →
      glyphBounds f r = .ok (fixedR c.lowerPoint.1 (-f.ascent)
          (c.lowerPoint.1 + (a.rectMaxX - a.rectMinX)) f.descent,
        fixedI c.advance.1, true)) := by
  constructor
  · intro h
    unfold glyphBounds
    rw [h]
  · intro i c a hl hc ha
    simp only [glyphBounds, hl, hc, ha]

theorem C9_glyphBounds_hit_miss_witness :
    glyphBounds fontC9 65 = .ok (fixedR charC9.lowerPoint.1 (-fontC9.ascent)
        (charC9.lowerPoint.1 + (alphaC9.rectMaxX - alphaC9.rectMinX))
        fontC9.descent,
      fixedI charC9.advance.1, true) :=
  (C9_glyphBounds_hit_miss fontC9 65).2 0 charC9 alphaC9 rfl rfl rfl

end Bdf
